import Mathlib

/-!
Verification of the ScrapLang evaluation core against its design document.

The definitions below are a shallow embedding of the TypeScript sources:

* `src/lang/elements/values/numerics.ts` (ScrapInteger and its
  increment/decrement methods),
* `src/lang/elements/commons.ts` (ScrapValue, ScrapObject with get/set/has,
  DefinedFunction, ScrapNative),
* `src/lang/elements/entities/variables.ts` (ScrapVariable),
* `src/interpreter/interpreter.ts` (the Interpreter class: computeValue,
  computeLitObj, computeLitArr, computeIdentifier, findCallee, execCallee,
  execDefinedFunc, computeRestParameters, computeInstruction, computeEntity,
  addToScope).

TypeScript in-place mutation is embedded as explicit state passing: object
methods return the updated object, and the interpreter threads a store of
scope frames.  Fallible code returns `Except`.  Recursion through function
calls is made total with a fuel parameter; fuel is decremented on every
recursive step, so every theorem about the evaluator is stated at an
explicit positive fuel.
-/

/-! ## Numeric primitives (numerics.ts)

A `ScrapInteger` object holds one mutable scalar field `value`.  The
`increment` method of the source is

  public increment() { return new ScrapInteger((this.value as number)++) }

JavaScript post-increment evaluates to the OLD scalar and then stores
`old + 1` back into `this.value`.  The method is embedded as a function
from the receiver state to the pair (returned ScrapInteger, receiver state
after the call); `decrement` is the same with post-decrement. -/

structure ScrapInteger where
  value : Int
deriving DecidableEq, Repr

/-- Embedding of `ScrapInteger.increment`: the returned primitive wraps the
receiver's old scalar (post-increment yields the old value), and the
receiver's stored scalar becomes `old + 1` as a side effect. -/
def ScrapInteger.increment (self : ScrapInteger) : ScrapInteger × ScrapInteger :=
  (ScrapInteger.mk self.value, ScrapInteger.mk (self.value + 1))

/-- Embedding of `ScrapInteger.decrement`: post-decrement returns the old
scalar and stores `old - 1` into the receiver. -/
def ScrapInteger.decrement (self : ScrapInteger) : ScrapInteger × ScrapInteger :=
  (ScrapInteger.mk self.value, ScrapInteger.mk (self.value - 1))

/-! ## Syntax tree nodes

The evaluator consumes a typed tree from the external parser.  Only the
node kinds whose handling is fully contained in the sources above are
embedded: identifier references, call expressions, object and array
literals, string / integer / char literals, the explicit `undefined`
expression, and variable declarations.  The remaining kinds (function
expressions, reassignments, module access, object destructuring, object
member access, binary expressions, `if` statements) are dispatched by the
interpreter to modules that are not part of the embedded sources and no
claim depends on them. -/

/-- Function parameter: a name plus the rest flag (`IScrapParam`). -/
structure ScrapParam where
  pName : String
  isRest : Bool
deriving DecidableEq, Repr

inductive ValueNode where
  /-- identifier reference node -/
  | identifier (sym : String)
  /-- call node: target name (`getCallee`) and argument expressions (`getArgs`) -/
  | call (callee : String) (args : List ValueNode)
  /-- literal object node: ordered key / expression pairs (`getPairs`) -/
  | litObject (pairs : List (String × ValueNode))
  /-- literal array node: ordered element expressions -/
  | litArray (elems : List ValueNode)
  /-- string literal -/
  | strLit (s : String)
  /-- integer literal (`isNumeric`) -/
  | intLit (n : Int)
  /-- char literal -/
  | charLit (c : Char)
  /-- the explicit `undefined` expression (`isUndefined`) -/
  | undefLit

/-- Entity declaration node.  Modelled from the spec: the
variable-declaration construction (`vars.computeVar`) is not among the
embedded sources; section 4.3 of the design states that a variable
declaration is computed to a Variable entity whose bound value is the
initializer evaluated in the current scope. -/
inductive EntityNode where
  | varDecl (isConst : Bool) (name : String) (isExported : Bool) (init : ValueNode)

/-- Instruction inside a function body: a value expression evaluated for
effect, or a declaration registered into the scope.  (`if` control
statements are dispatched to `ctrls.computeIf`, which is not among the
embedded sources; no claim depends on them.) -/
inductive InstructionNode where
  | value (v : ValueNode)
  | entity (e : EntityNode)

/-! ## Runtime values (commons.ts)

`ScrapValue` is the tagged set of runtime values.  An Object's payload is
its ordered name-to-property table (a `Map` in the source, embedded as an
association list preserving insertion order) plus a nullable prototype
reference.  A property descriptor (`ScrapObjectProperty`) carries the
metaproperties and the bound value.  A `DefinedFunction` owns a scope
(embedded as an index into the store of scope frames), its parameter
list, body and return-expression node.  A `ScrapNative` carries its name
and its arity constraint (`number | true` in the source, embedded as
`Option Nat` with `none` for variable arity); its host callable is opaque
and is supplied to the evaluator as a separate host environment. -/

mutual
inductive ScrapValue where
  /-- integer primitive scalar -/
  | integer (n : Int)
  /-- string primitive -/
  | strV (s : String)
  /-- char primitive -/
  | charV (c : Char)
  /-- the Undefined sentinel (`ScrapUndefined`) -/
  | undefinedV
  /-- the host language's own `undefined`, as produced by a TypeScript
  function that falls off the end of its body; distinct from the
  language-level `ScrapUndefined` sentinel -/
  | hostUndefined
  /-- array value (`ScrapArray`): ordered property descriptors -/
  | array (elems : List ScrapObjectProperty)
  /-- object value: prototype reference and own ordered property table -/
  | object (proto : Option ScrapValue) (entries : List (String × ScrapObjectProperty))
  /-- user-defined function: name, owned scope (store index), parameters,
  body instructions and return-expression node -/
  | definedFn (name : String) (scopeId : Nat) (params : List ScrapParam)
      (body : List InstructionNode) (ret : ValueNode)
  /-- native function: name and arity constraint; the host callable is
  opaque -/
  | nativeFn (name : String) (argsCount : Option Nat)

inductive ScrapObjectProperty where
  | mk (isStatic : Bool) (visibility : String) (writeable : Bool) (value : ScrapValue)

inductive ScrapEntity where
  /-- a Variable: const flag, name, assigned value, exported flag -/
  | variableE (isConst : Bool) (name : String) (value : ScrapValue) (isExported : Bool)
  /-- a Function registered directly as a scope entity -/
  | functionE (f : ScrapValue)
end

/-- Bound value of a property descriptor. -/
def ScrapObjectProperty.value : ScrapObjectProperty → ScrapValue
  | .mk _ _ _ v => v

/-- Prototype reference of an object value (`none` on non-objects). -/
def ScrapValue.protoOf : ScrapValue → Option ScrapValue
  | .object proto _ => proto
  | _ => none

/-- First property bound to `name` in an own table, in insertion order
(the `Map.get` of the source). -/
def lookupProp : List (String × ScrapObjectProperty) → String → Option ScrapObjectProperty
  | [], _ => none
  | (k, p) :: rest, name => if k = name then some p else lookupProp rest name

/-- Overwrite-or-append update of an own table (the `Map.set` of the
source: an existing key keeps its position, a new key is appended). -/
def setProp : List (String × ScrapObjectProperty) → String → ScrapObjectProperty →
    List (String × ScrapObjectProperty)
  | [], key, p => [(key, p)]
  | (k, q) :: rest, key, p =>
    if k = key then (k, p) :: rest else (k, q) :: setProp rest key p

/-- Embedding of `ScrapObject.get`: the source reads only the receiver's
own table (`this.value`) and returns the Undefined sentinel on a miss; the
prototype reference is not consulted.  The method is only ever invoked on
objects; on a non-object payload the embedding returns the sentinel. -/
def ScrapObject.get (o : ScrapValue) (name : String) : ScrapValue :=
  match o with
  | .object _ entries =>
    match lookupProp entries name with
    | some prop => prop.value
    | none => .undefinedV
  | _ => .undefinedV

/-- Embedding of `ScrapObject.set`: inserts or overwrites an entry in the
receiver's own table only; the prototype is untouched. -/
def ScrapObject.set (o : ScrapValue) (key : String) (p : ScrapObjectProperty) : ScrapValue :=
  match o with
  | .object proto entries => .object proto (setProp entries key p)
  | other => other

/-- Embedding of `ScrapObject.has`: membership in the receiver's own
table only. -/
def ScrapObject.has (o : ScrapValue) (name : String) : Bool :=
  match o with
  | .object _ entries => (lookupProp entries name).isSome
  | _ => false

/-- Modelled from the spec: lookup of `name` through the full prototype
chain, the behavior section 4.1 of the design prescribes for `get`
(own table first, then successive prototypes, Undefined sentinel when the
whole chain is exhausted).  This is the specification-side definition;
`ScrapObject.get` above is the source-side one. -/
def chainGet : ScrapValue → String → ScrapValue
  | .object proto entries, name =>
    match lookupProp entries name with
    | some prop => prop.value
    | none =>
      match proto with
      | some parent => chainGet parent name
      | none => .undefinedV
  | _, _ => .undefinedV

/-- Modelled from the spec: membership of `name` somewhere in the full
prototype chain (the full-chain reading of `has` that section 4.1 leaves
open). -/
def chainHas : ScrapValue → String → Bool
  | .object proto entries, name =>
    (lookupProp entries name).isSome ||
      (match proto with
       | some parent => chainHas parent name
       | none => false)
  | _, _ => false

/-! ## Claim C1 -/

/-- C1: the claim states that `increment(v)` returns a new Integer holding
`v + 1` and leaves the receiver's stored scalar unchanged (likewise
`decrement` with `v - 1`).  The source uses post-increment, so the code
does the opposite on both counts: the returned primitive holds the OLD
scalar and the receiver is mutated to `v ± 1`.  At the failing input 5:
increment returns 5 (not 6) and leaves the receiver at 6 (not 5);
decrement returns 5 (not 4) and leaves the receiver at 4 (not 5). -/
theorem c1_increment_post_increment_bug :
    ((ScrapInteger.mk 5).increment.1.value = 5 ∧
      (ScrapInteger.mk 5).increment.2.value = 6) ∧
    ((ScrapInteger.mk 5).increment.1.value ≠ 5 + 1 ∧
      (ScrapInteger.mk 5).increment.2.value ≠ 5) ∧
    ((ScrapInteger.mk 5).decrement.1.value = 5 ∧
      (ScrapInteger.mk 5).decrement.2.value = 4) ∧
    ((ScrapInteger.mk 5).decrement.1.value ≠ 5 - 1 ∧
      (ScrapInteger.mk 5).decrement.2.value ≠ 5) := by
  decide

/-! ## Claim C2 -/

/-- Concrete counterexample object for C2: an own table with no entries
and a prototype binding `x` to the integer 7. -/
def c2ProtoObject : ScrapValue :=
  .object none [("x", .mk true "public" true (.integer 7))]

def c2Object : ScrapValue := .object (some c2ProtoObject) []

/-- C2: the claim states that `get` searches the own table and then the
prototype chain, returning the prototype's bound value when the name is
absent from the own table.  The source's `get` reads only the own table:
on an object whose own table is empty but whose prototype binds `x` to 7,
`get` returns the Undefined sentinel while the chain lookup the design
prescribes returns 7. -/
theorem c2_get_ignores_prototype_chain :
    ScrapObject.get c2Object "x" = .undefinedV ∧
    chainGet c2Object "x" = .integer 7 ∧
    ScrapValue.undefinedV ≠ ScrapValue.integer 7 := by
  refine ⟨rfl, rfl, by simp⟩

/-! ## Claim C9 -/

/-- C9: for every object (any prototype, any prior own table), key and
property descriptor, after `set(k, d)` the lookup `get(k)` returns
`d.value`, `has(k)` is true, and the prototype reference is unchanged
(`set` writes the own table only). -/
theorem c9_set_get_has (proto : Option ScrapValue)
    (entries : List (String × ScrapObjectProperty))
    (k : String) (d : ScrapObjectProperty) :
    ScrapObject.get (ScrapObject.set (.object proto entries) k d) k = d.value ∧
    ScrapObject.has (ScrapObject.set (.object proto entries) k d) k = true ∧
    (ScrapObject.set (.object proto entries) k d).protoOf = proto := by
  have hlook : lookupProp (setProp entries k d) k = some d := by
    induction entries with
    | nil => simp [setProp, lookupProp]
    | cons hd tl ih =>
      obtain ⟨k₀, p₀⟩ := hd
      by_cases h : k₀ = k
      · simp [setProp, h, lookupProp]
      · simp [setProp, h, lookupProp, ih]
  refine ⟨?_, ?_, rfl⟩
  · simp [ScrapObject.set, ScrapObject.get, hlook]
  · simp [ScrapObject.set, ScrapObject.has, hlook]

/-! ## Claim C10 -/

/-- C10: `has` consults only the own property table: it returns true
exactly when the name is a key of the own table, and in particular it
returns false on the concrete object whose own table is empty even though
the name is bound in its prototype chain (`chainHas` witnesses the
binding). -/
theorem c10_has_own_table_only :
    (∀ (proto : Option ScrapValue) (entries : List (String × ScrapObjectProperty))
        (n : String),
      ScrapObject.has (.object proto entries) n = (lookupProp entries n).isSome) ∧
    chainHas c2Object "x" = true ∧
    ScrapObject.has c2Object "x" = false := by
  refine ⟨fun proto entries n => rfl, rfl, rfl⟩

/-! ## Scopes and the store

Modelled from the spec: the Scope class (`lang/scope.ts`) is not among the
embedded sources; sections 3 and 4.2 of the design describe it.  A scope
is a lexical binding table with an owner label, a non-owning parent
reference and a name-to-entity mapping; `addEntry` fails (returns false)
when the name already exists in this scope's own table; `getReference`
searches this scope then successive parents; `clean` empties this scope's
own table only.  Mutation is embedded by threading a store (the list of
all live scope frames, indexed by scope id); the parent chain is acyclic
per section 3, realised here by the arena convention that a parent frame
precedes its children in the store. -/

/-- Lookup in a scope's own binding table, by name. -/
def lookupEntry : List (String × ScrapEntity) → String → Option ScrapEntity
  | [], _ => none
  | (k, e) :: rest, name => if k = name then some e else lookupEntry rest name

structure Scope where
  owner : String
  parent : Option Nat
  entries : List (String × ScrapEntity)

abbrev Store := List Scope

/-- Own binding table of the scope frame at `sid` (empty for a dangling id). -/
def entriesAt (store : Store) (sid : Nat) : List (String × ScrapEntity) :=
  match store[sid]? with
  | some sc => sc.entries
  | none => []

/-- Owner label of the scope frame at `sid` (`getOwner`). -/
def ownerAt (store : Store) (sid : Nat) : String :=
  match store[sid]? with
  | some sc => sc.owner
  | none => ""

/-- Replace the own binding table of the frame at `sid`, keeping its owner
and parent. -/
def setEntriesAt (store : Store) (sid : Nat) (es : List (String × ScrapEntity)) : Store :=
  match store[sid]? with
  | some sc => store.set sid ⟨sc.owner, sc.parent, es⟩
  | none => store

/-- Embedding of `Scope.addEntry` with its boolean result discarded, as at
the interpreter's parameter-binding sites: appends the binding unless the
name already exists in this scope's own table, in which case the store is
left unchanged. -/
def scopeAddEntry (store : Store) (sid : Nat) (name : String) (ent : ScrapEntity) : Store :=
  if (lookupEntry (entriesAt store sid) name).isSome then store
  else setEntriesAt store sid (entriesAt store sid ++ [(name, ent)])

/-- Embedding of `Scope.clean`: empties this scope's own table only. -/
def cleanScope (store : Store) (sid : Nat) : Store :=
  setEntriesAt store sid []

/-- Embedding of `Scope.getReference` (also used for the `Scope.get`
lookup of `findCallee`): the nearest binding found by searching this
scope's own table then successive parents.  The walk follows the arena
convention (a parent id is smaller than its child's id), so it is bounded
by the starting id; a forward parent reference would be a cyclic chain,
which section 3 excludes. -/
def getRefAux (store : Store) : Nat → Nat → String → Option ScrapEntity
  | 0, _, _ => none
  | bound + 1, sid, name =>
    match store[sid]? with
    | none => none
    | some sc =>
      match lookupEntry sc.entries name with
      | some e => some e
      | none =>
        match sc.parent with
        | some p => if p < sid then getRefAux store bound p name else none
        | none => none

def getReference (store : Store) (sid : Nat) (name : String) : Option ScrapEntity :=
  getRefAux store (sid + 1) sid name

/-- Membership of the frame `tid` in the parent chain starting at `sid`
(including `sid` itself), under the same arena convention as
`getReference`. -/
def chainMemAux (store : Store) : Nat → Nat → Nat → Bool
  | 0, _, _ => false
  | bound + 1, sid, tid =>
    sid == tid ||
      (match store[sid]? with
       | none => false
       | some sc =>
         match sc.parent with
         | some p => if p < sid then chainMemAux store bound p tid else false
         | none => false)

def chainMem (store : Store) (sid tid : Nat) : Bool :=
  chainMemAux store (sid + 1) sid tid

/-! ## Failure kinds and error messages

Two failure kinds cross the core boundary (section 7): an undefined
reference (`UndefinedReferenceError`, raised by `scrapReferenceError` with
the parser's current token) and a generic runtime error with a message
(`RuntimeError`, raised by `scrapRuntimeError`).  The fuel exhaustion
outcome is an artifact of the embedding, not a source failure kind. -/

inductive EvalErr where
  | undefinedRef (tok : String)
  | runtime (msg : String)
  | outOfFuel
deriving DecidableEq, Repr

/-- Arity message of `computeRestParameters` (interpreter.ts line 86). -/
def restArityMsg (name : String) (k m : Nat) : String :=
  "'" ++ name ++ "' expects from " ++ toString k ++
    " to multiple arguments, but received " ++ toString m

/-- Arity message of the non-rest branch of `execDefinedFunc`
(interpreter.ts line 121). -/
def nonRestArityMsg (name : String) (n m : Nat) : String :=
  "'" ++ name ++ "' expects " ++ toString n ++ " arguments, but received " ++ toString m

/-- Arity message of the native branch of `execCallee` (interpreter.ts
line 157); `argsCountText` is the string interpolation of the arity
constraint (a count, or the literal `true` for variable arity). -/
def nativeArityMsg (name : String) (argsCountText : String) (m : Nat) : String :=
  "'" ++ name ++ "' expects " ++ argsCountText ++ " arguments, but " ++
    toString m ++ " has been received"

/-- Message of the not-callable failure in `findCallee` (line 172). -/
def notCallableMsg (name : String) : String :=
  "The expression is not callable. '" ++ name ++
    "' doesn't contains values with call signatures"

/-- Message of the locally-scoped-return rejection in `execDefinedFunc`
(line 136). -/
def escapeMsg (name : String) : String :=
  "You returned a locally scoped value in '" ++ name ++
    "', which will be destroyed after the execution ends"

/-- Message of the duplicate-declaration failure in `addToScope`
(line 56). -/
def dupMsg (name owner : String) : String :=
  "'" ++ name ++ "' is already defined at '" ++ owner ++ "'"

/-! ## Non-recursive interpreter pieces -/

/-- Name of a scope entity (`Nameable`). -/
def ScrapEntity.entityName : ScrapEntity → String
  | .variableE _ n _ _ => n
  | .functionE (.definedFn n _ _ _ _) => n
  | .functionE (.nativeFn n _) => n
  | .functionE _ => ""

/-- Embedding of `addToScope` (interpreter.ts lines 54-59): registers the
entity under its name, failing with the duplicate-declaration runtime
error when `Scope.addEntry` reports the name as already present in this
scope's own table. -/
def addToScope (ent : ScrapEntity) (sid : Nat) (store : Store) : Except EvalErr Store :=
  if (lookupEntry (entriesAt store sid) ent.entityName).isSome then
    .error (.runtime (dupMsg ent.entityName (ownerAt store sid)))
  else
    .ok (setEntriesAt store sid (entriesAt store sid ++ [(ent.entityName, ent)]))

/-- Modelled from the spec: `guards.isDefinedFn` lives in
`lang/elements/guards.ts`, which is not among the embedded sources.  Per
its name and its use at `findCallee` (line 171) it is the runtime type
guard for user-defined functions, i.e. instances of the `DefinedFunction`
class of commons.ts; a native function or any non-function value fails
the guard — in particular the host language's own `undefined`, which no
instance-based runtime type guard accepts. -/
def isDefinedFn : ScrapValue → Bool
  | .definedFn _ _ _ _ _ => true
  | _ => false

/-- Embedding of the primitive detach step of `computeIdentifier` (line
203): a value that is a Primitive instance is rewrapped as a plain
`ScrapValue` carrying only its scalar payload.  The embedding's primitive
constructors carry exactly the scalar payload, so the rewrap preserves
the value; non-primitive values are returned as-is, making the whole step
the identity here. -/
def detachPrimitive (v : ScrapValue) : ScrapValue := v

/-- Embedding of `Interpreter.computeIdentifier` (lines 197-204): resolve
the symbol through the scope chain; absence is an undefined-reference
failure; a Variable yields its current assigned value (primitives
detached), a Function yields itself. -/
def computeIdentifier (sym : String) (sid : Nat) (store : Store) :
    Except EvalErr (ScrapValue × Store) :=
  match getReference store sid sym with
  | none => .error (.undefinedRef sym)
  | some (.variableE _ _ v _) => .ok (detachPrimitive v, store)
  | some (.functionE f) => .ok (f, store)

/-- Embedding of `Interpreter.findCallee` (lines 165-179): resolve the
call's target name in the caller's scope; absence fails with an
undefined reference; an entity that is itself a Function is returned
unchecked.  When the resolved entity is a Variable, the source guards
`isDefinedFn(callee.getVal)` at line 171 — but the ScrapVariable class
of variables.ts defines no `getVal` member (its accessor is
`getAssignedValue`, the one used at line 174), so in the host language
the access yields `undefined`, the guard receives that `undefined` and
fails for every assigned value, and every Variable callee takes the
not-callable branch.  The then-branch that would return the variable's
assigned value (line 174) is kept below, mirroring the source, but is
unreachable. -/
def findCallee (calleeName : String) (sid : Nat) (store : Store) :
    Except EvalErr ScrapValue :=
  match getReference store sid calleeName with
  | none => .error (.undefinedRef calleeName)
  | some (.variableE _ _ v _) =>
    if isDefinedFn ScrapValue.hostUndefined then .ok v
    else .error (.runtime (notCallableMsg calleeName))
  | some (.functionE f) => .ok f

/-- Embedding of `Interpreter.computeLitArr` (lines 228-229).  The
method's body is empty in the source: although its signature promises a
`ScrapArray`, no element is evaluated and the call produces the host
language's `undefined`.  The scope and store are untouched. -/
def computeLitArr (elems : List ValueNode) (sid : Nat) (store : Store) :
    Except EvalErr (ScrapValue × Store) :=
  .ok (.hostUndefined, store)

/-- True when the last parameter exists and is flagged rest (the dispatch
condition of line 117). -/
def paramsHaveRest (params : List ScrapParam) : Bool :=
  match params.getLast? with
  | some p => p.isRest
  | none => false

/-- Name of the last parameter (the rest parameter's name at line 96). -/
def lastParamName (params : List ScrapParam) : String :=
  match params.getLast? with
  | some p => p.pName
  | none => ""

/-- True on the explicit undefined return expression (`isUndefined`,
line 140). -/
def ValueNode.isUndefinedNode : ValueNode → Bool
  | .undefLit => true
  | _ => false

/-- The return-value safety check of `execDefinedFunc` (line 135): the
return expression is a bare identifier whose symbol is a key of the
function's own scope table. -/
def escapeCheck (ret : ValueNode) (store : Store) (sid : Nat) : Bool :=
  match ret with
  | .identifier s => (lookupEntry (entriesAt store sid) s).isSome
  | _ => false

/-- The property descriptor the interpreter wraps around an evaluated
element (lines 100-107): metaproperties isStatic, public, writeable. -/
def mkRestProp (v : ScrapValue) : ScrapObjectProperty :=
  .mk true "public" true v

/-- JavaScript truthiness test of the native arity constraint at line
156: the variadic marker `true` is truthy, a count is truthy unless it
is 0. -/
def argsCountTruthy : Option Nat → Bool
  | none => true
  | some n => n != 0

/-- Numeric coercion of the arity constraint in the comparison at line
156 (`Number(true)` is 1). -/
def argsCountNum : Option Nat → Nat
  | none => 1
  | some n => n

/-- String interpolation of the arity constraint in the message at line
157. -/
def argsCountText : Option Nat → String
  | none => "true"
  | some n => toString n

/-! ## The evaluator

Embedding of the recursive core of the Interpreter class.  Every function
takes a fuel argument and decrements it on each recursive step (the source
recurses without bound; section 5 notes that recursion depth is limited
only by the host stack).  `host` supplies the opaque host callables of
native functions (section 6: natives are registered as opaque callables
from a value sequence to one value, keyed here by name). -/

variable (host : String → List ScrapValue → ScrapValue)

mutual
/-- Embedding of `Interpreter.computeValue` (lines 237-257), restricted to
the node kinds whose handling is fully contained in the embedded sources;
the dispatch is by node classification, so the source's test order is
immaterial for these disjoint kinds.  A node kind the dispatch does not
recognise (here: the explicit undefined expression, which has no
`isUndefined` arm in `computeValue`) falls through to the
unsupported-construct runtime error of line 254. -/
def computeValue : Nat → ValueNode → Nat → Store → Except EvalErr (ScrapValue × Store)
  | 0, _, _, _ => .error .outOfFuel
  | fuel + 1, node, sid, store =>
    match node with
    | .call name args => computeCall fuel name args sid store
    | .identifier s => computeIdentifier s sid store
    | .litObject pairs => computeLitObj fuel pairs sid store
    | .litArray elems => computeLitArr elems sid store
    | .strLit s => .ok (.strV s, store)
    | .intLit n => .ok (.integer n, store)
    | .charLit c => .ok (.charV c, store)
    | .undefLit =>
      .error (.runtime
        "ScrapLang v1.0 still doesn't support 'UndefinedNode' interpreting")
termination_by structural fuel _ _ _ => fuel

/-- Embedding of `Interpreter.computeLitObj` (lines 212-220): each pair's
expression is evaluated in the current scope, in source order, and the
result object carries no prototype.  The source inserts the evaluated
`ScrapValue` itself into the table the `ScrapObject` constructor expects
property descriptors in (a typing slip it never corrects); the embedding
wraps each value in the standard descriptor to stay well-typed. -/
def computeLitObj : Nat → List (String × ValueNode) → Nat → Store →
    Except EvalErr (ScrapValue × Store)
  | 0, _, _, _ => .error .outOfFuel
  | fuel + 1, pairs, sid, store => do
    let (es, s₁) ← evalPairsInto fuel pairs [] sid store
    .ok (.object none es, s₁)
termination_by structural fuel _ _ _ => fuel

/-- Sequential evaluation of literal-object pairs, accumulating with the
overwrite-or-append `Map.set` discipline of the source loop. -/
def evalPairsInto : Nat → List (String × ValueNode) →
    List (String × ScrapObjectProperty) → Nat → Store →
    Except EvalErr (List (String × ScrapObjectProperty) × Store)
  | 0, _, _, _, _ => .error .outOfFuel
  | _ + 1, [], acc, _, store => .ok (acc, store)
  | fuel + 1, (k, e) :: rest, acc, sid, store => do
    let (v, s₁) ← computeValue fuel e sid store
    evalPairsInto fuel rest (setProp acc k (mkRestProp v)) sid s₁
termination_by structural fuel _ _ _ _ => fuel

/-- Left-to-right evaluation of a list of value nodes in one scope,
threading the store (the sequential `map` over argument expressions). -/
def evalValueList : Nat → List ValueNode → Nat → Store →
    Except EvalErr (List ScrapValue × Store)
  | 0, _, _, _ => .error .outOfFuel
  | _ + 1, [], _, store => .ok ([], store)
  | fuel + 1, n :: rest, sid, store => do
    let (v, s₁) ← computeValue fuel n sid store
    let (vs, s₂) ← evalValueList fuel rest sid s₁
    .ok (v :: vs, s₂)
termination_by structural fuel _ _ _ => fuel

/-- Embedding of `Interpreter.computeCall` (lines 186-189): resolve the
callee in the caller's scope, then execute it. -/
def computeCall : Nat → String → List ValueNode → Nat → Store →
    Except EvalErr (ScrapValue × Store)
  | 0, _, _, _, _ => .error .outOfFuel
  | fuel + 1, name, args, sid, store => do
    let callee ← findCallee name sid store
    execCallee fuel args callee sid store
termination_by structural fuel _ _ _ _ => fuel

/-- Embedding of `Interpreter.execCallee` (lines 154-163).  Native case:
the arity guard reproduces the JavaScript condition of line 156 (the
constraint must be truthy and numerically smaller than the argument
count); otherwise every argument is evaluated in the caller's scope, left
to right, and the opaque host callable is applied.  Defined case: the
callee's own scope and the caller's scope are handed to
`execDefinedFunc`.  The source casts any other callee to
`DefinedFunction` unconditionally; that point is unreachable through
`findCallee`, and the embedding makes it a runtime error. -/
def execCallee : Nat → List ValueNode → ScrapValue → Nat → Store →
    Except EvalErr (ScrapValue × Store)
  | 0, _, _, _, _ => .error .outOfFuel
  | fuel + 1, args, callee, sid, store =>
    match callee with
    | .nativeFn name argsCount =>
      if argsCountTruthy argsCount && argsCountNum argsCount < args.length then
        .error (.runtime (nativeArityMsg name (argsCountText argsCount) args.length))
      else do
        let (vs, s₁) ← evalValueList fuel args sid store
        .ok (host name vs, s₁)
    | .definedFn fname fsid params body ret =>
      execDefinedFunc fuel args fname params body ret fsid sid store
    | _ => .error (.runtime "execCallee: callee is not a function")
termination_by structural fuel _ _ _ _ => fuel

/-- Embedding of `Interpreter.execDefinedFunc` (lines 113-145): bind the
parameters (rest or exact-arity), execute the body's instructions in the
function's own scope, reject a bare-identifier return naming an entry of
the function's own scope, release the function's own scope with
`clean()`, and only then produce the return value (an explicit undefined
return expression yields the Undefined sentinel, any other return
expression is evaluated in the function's own, now-emptied scope).  The
`sid` parameter is the function's own scope, exactly the scope argument
`execCallee` passes. -/
def execDefinedFunc : Nat → List ValueNode → String → List ScrapParam →
    List InstructionNode → ValueNode → Nat → Nat → Store →
    Except EvalErr (ScrapValue × Store)
  | 0, _, _, _, _, _, _, _, _ => .error .outOfFuel
  | fuel + 1, args, fname, params, body, ret, sid, calleerSid, store => do
    let s₁ ← bindCallArgs fuel args fname params sid calleerSid store
    let s₂ ← execBody fuel body sid s₁
    if escapeCheck ret s₂ sid then
      .error (.runtime (escapeMsg fname))
    else
      let s₃ := cleanScope s₂ sid
      if ret.isUndefinedNode then .ok (.undefinedV, s₃)
      else computeValue fuel ret sid s₃
termination_by structural fuel _ _ _ _ _ _ _ _ => fuel

/-- The parameter-binding step of `execDefinedFunc` (lines 117-129),
named for reuse in the statements below: the rest path when the last
parameter is flagged rest, otherwise the exact-arity check followed by
the positional binding loop. -/
def bindCallArgs : Nat → List ValueNode → String → List ScrapParam → Nat → Nat →
    Store → Except EvalErr Store
  | 0, _, _, _, _, _, _ => .error .outOfFuel
  | fuel + 1, args, fname, params, sid, calleerSid, store =>
    if paramsHaveRest params then
      computeRestParameters fuel fname sid calleerSid params args store
    else if args.length ≠ params.length then
      .error (.runtime (nonRestArityMsg fname params.length args.length))
    else
      bindArgsLoop fuel params args sid calleerSid store
termination_by structural fuel _ _ _ _ _ _ => fuel

/-- The positional binding loop shared by the non-rest branch (lines
123-128) and the rest-path loop over the sliced lists (lines 88-93),
which are textually identical in the source: evaluate the argument in the
caller's scope and add a mutable (non-const) Variable binding into the
callee's own scope, left to right. -/
def bindArgsLoop : Nat → List ScrapParam → List ValueNode → Nat → Nat → Store →
    Except EvalErr Store
  | 0, _, _, _, _, _ => .error .outOfFuel
  | fuel + 1, p :: ps, a :: argsRest, sid, calleerSid, store => do
    let (v, s₁) ← computeValue fuel a calleerSid store
    bindArgsLoop fuel ps argsRest sid calleerSid
      (scopeAddEntry s₁ sid p.pName (.variableE false p.pName v false))
  | _ + 1, _, _, _, _, store => .ok store
termination_by structural fuel _ _ _ _ _ => fuel

/-- Embedding of `Interpreter.computeRestParameters` (lines 80-111): the
parameters before the last are bound positionally against the same-length
slice of the arguments (a shorter argument list fails with the
from-N-to-multiple arity error); the remaining trailing arguments are
each evaluated in the caller's scope, wrapped in the standard property
descriptor, collected in order into one array value, and bound as a const
Variable under the rest parameter's name. -/
def computeRestParameters : Nat → String → Nat → Nat → List ScrapParam →
    List ValueNode → Store → Except EvalErr Store
  | 0, _, _, _, _, _, _ => .error .outOfFuel
  | fuel + 1, fname, sid, calleerSid, params, args, store =>
    let restIdx := params.length - 1
    let slicedParams := params.take restIdx
    let slicedArgs := args.take restIdx
    if slicedArgs.length ≠ slicedParams.length then
      .error (.runtime (restArityMsg fname slicedParams.length slicedArgs.length))
    else do
      let s₁ ← bindArgsLoop fuel slicedParams slicedArgs sid calleerSid store
      let (vs, s₂) ← evalValueList fuel (args.drop restIdx) calleerSid s₁
      .ok (scopeAddEntry s₂ sid (lastParamName params)
        (.variableE true (lastParamName params) (.array (vs.map mkRestProp)) false))
termination_by structural fuel _ _ _ _ _ _ => fuel

/-- Sequential execution of a function body's instructions (lines
131-132). -/
def execBody : Nat → List InstructionNode → Nat → Store → Except EvalErr Store
  | 0, _, _, _ => .error .outOfFuel
  | _ + 1, [], _, store => .ok store
  | fuel + 1, i :: rest, sid, store => do
    let s₁ ← computeInstruction fuel i sid store
    execBody fuel rest sid s₁
termination_by structural fuel _ _ _ => fuel

/-- Embedding of `Interpreter.computeInstruction` (lines 284-292): a value
expression is evaluated for effect and its result discarded; a
declaration is computed as an entity and registered into the given scope
through `addToScope`. -/
def computeInstruction : Nat → InstructionNode → Nat → Store → Except EvalErr Store
  | 0, _, _, _ => .error .outOfFuel
  | fuel + 1, node, sid, store =>
    match node with
    | .value v => do
      let (_, s₁) ← computeValue fuel v sid store
      .ok s₁
    | .entity e => do
      let (ent, s₁) ← computeEntity fuel e sid store
      addToScope ent sid s₁
termination_by structural fuel _ _ _ => fuel

/-- Embedding of the variable-declaration arm of
`Interpreter.computeEntity` (line 268).  Modelled from the spec:
`vars.computeVar` is not among the embedded sources; per sections 3 and
4.3 the declaration constructs a Variable entity carrying the const flag
and the initializer evaluated in the current scope. -/
def computeEntity : Nat → EntityNode → Nat → Store → Except EvalErr (ScrapEntity × Store)
  | 0, _, _, _ => .error .outOfFuel
  | fuel + 1, .varDecl isConst name isExported init, sid, store => do
    let (v, s₁) ← computeValue fuel init sid store
    .ok (.variableE isConst name v isExported, s₁)
termination_by structural fuel _ _ _ => fuel
end

/-! ## Store lemmas -/

theorem setEntriesAt_length (store : Store) (tid : Nat) (es : List (String × ScrapEntity)) :
    (setEntriesAt store tid es).length = store.length := by
  unfold setEntriesAt
  cases store[tid]? <;> simp

theorem getElem?_setEntriesAt_ne (store : Store) (tid : Nat)
    (es : List (String × ScrapEntity)) (sid : Nat) (h : sid ≠ tid) :
    (setEntriesAt store tid es)[sid]? = store[sid]? := by
  unfold setEntriesAt
  cases store[tid]? with
  | none => rfl
  | some sc => exact List.getElem?_set_ne (Ne.symm h)

theorem getElem?_setEntriesAt_self (store : Store) (tid : Nat)
    (es : List (String × ScrapEntity)) :
    (setEntriesAt store tid es)[tid]? =
      store[tid]?.map (fun sc => ⟨sc.owner, sc.parent, es⟩) := by
  unfold setEntriesAt
  cases h : store[tid]? with
  | none => simp; exact List.getElem?_eq_none_iff.mp h
  | some sc =>
    have hlt : tid < store.length := by
      by_contra hge
      rw [List.getElem?_eq_none (Nat.le_of_not_lt hge)] at h
      exact Option.noConfusion h
    simp [List.getElem?_set_eq_of_lt _ hlt]

theorem entriesAt_setEntriesAt_self (store : Store) (tid : Nat)
    (es : List (String × ScrapEntity)) (h : tid < store.length) :
    entriesAt (setEntriesAt store tid es) tid = es := by
  obtain ⟨sc, hsc⟩ : ∃ sc, store[tid]? = some sc :=
    ⟨store[tid], List.getElem?_eq_getElem h⟩
  unfold entriesAt
  rw [getElem?_setEntriesAt_self, hsc]
  simp

theorem setEntriesAt_eq_set (store : Store) (tid : Nat)
    (es : List (String × ScrapEntity)) (sc : Scope) (hsc : store[tid]? = some sc) :
    setEntriesAt store tid es = store.set tid ⟨sc.owner, sc.parent, es⟩ := by
  unfold setEntriesAt
  rw [hsc]

theorem setEntriesAt_setEntriesAt (store : Store) (tid : Nat)
    (es es' : List (String × ScrapEntity)) :
    setEntriesAt (setEntriesAt store tid es) tid es' = setEntriesAt store tid es' := by
  by_cases h : tid < store.length
  · obtain ⟨sc, hsc⟩ : ∃ sc, store[tid]? = some sc :=
      ⟨store[tid], List.getElem?_eq_getElem h⟩
    have h₁ : setEntriesAt store tid es = store.set tid ⟨sc.owner, sc.parent, es⟩ :=
      setEntriesAt_eq_set store tid es sc hsc
    have h₂ : (store.set tid ⟨sc.owner, sc.parent, es⟩)[tid]? =
        some ⟨sc.owner, sc.parent, es⟩ :=
      List.getElem?_set_eq_of_lt _ (by simpa using h)
    rw [h₁, setEntriesAt_eq_set _ tid es' _ h₂, List.set_set,
      setEntriesAt_eq_set store tid es' sc hsc]
  · have hnone : store[tid]? = none := List.getElem?_eq_none (Nat.le_of_not_lt h)
    unfold setEntriesAt
    rw [hnone, hnone]

theorem parent_setEntriesAt (store : Store) (tid : Nat)
    (es : List (String × ScrapEntity)) (sid : Nat) :
    ((setEntriesAt store tid es)[sid]?).map Scope.parent = (store[sid]?).map Scope.parent := by
  by_cases hsid : sid = tid
  · subst hsid
    rw [getElem?_setEntriesAt_self]
    cases store[sid]? <;> simp
  · rw [getElem?_setEntriesAt_ne _ _ _ _ hsid]

theorem chainMemAux_setEntriesAt (store : Store) (tid : Nat)
    (es : List (String × ScrapEntity)) :
    ∀ bound sid tid', chainMemAux (setEntriesAt store tid es) bound sid tid' =
      chainMemAux store bound sid tid' := by
  intro bound
  induction bound with
  | zero => intro sid tid'; rfl
  | succ bound ih =>
    intro sid tid'
    unfold chainMemAux
    by_cases hsid : sid = tid
    · subst hsid
      rw [getElem?_setEntriesAt_self]
      cases h₂ : store[sid]? with
      | none => simp
      | some sc =>
        simp only [Option.map_some]
        cases hp : sc.parent with
        | none => simp [hp]
        | some p =>
          by_cases hlt : p < sid <;> simp [hp, hlt, ih]
    · rw [getElem?_setEntriesAt_ne _ _ _ _ hsid]
      cases h₂ : store[sid]? with
      | none => rfl
      | some sc =>
        cases hp : sc.parent with
        | none => simp [hp]
        | some p =>
          by_cases hlt : p < sid <;> simp [hp, hlt, ih]

theorem chainMem_setEntriesAt (store : Store) (tid : Nat)
    (es : List (String × ScrapEntity)) (sid tid' : Nat) :
    chainMem (setEntriesAt store tid es) sid tid' = chainMem store sid tid' := by
  unfold chainMem
  exact chainMemAux_setEntriesAt store tid es (sid + 1) sid tid'

theorem getRefAux_setEntriesAt (store : Store) (tid : Nat)
    (es : List (String × ScrapEntity)) :
    ∀ bound sid name, chainMemAux store bound sid tid = false →
      getRefAux (setEntriesAt store tid es) bound sid name =
        getRefAux store bound sid name := by
  intro bound
  induction bound with
  | zero => intro sid name _; rfl
  | succ bound ih =>
    intro sid name hmem
    unfold chainMemAux at hmem
    rw [Bool.or_eq_false_iff] at hmem
    obtain ⟨hne, hrest⟩ := hmem
    have hsid : sid ≠ tid := by simpa using hne
    unfold getRefAux
    rw [getElem?_setEntriesAt_ne _ _ _ _ hsid]
    cases h : store[sid]? with
    | none => rfl
    | some sc =>
      rw [h] at hrest
      simp only at hrest ⊢
      cases lookupEntry sc.entries name with
      | some e => rfl
      | none =>
        simp only
        cases hpar : sc.parent with
        | none => rfl
        | some p =>
          rw [hpar] at hrest
          simp only at hrest ⊢
          by_cases hp : p < sid
          · simp only [hp, if_true] at hrest ⊢
            exact ih p name hrest
          · simp [hp]

theorem getReference_setEntriesAt (store : Store) (tid : Nat)
    (es : List (String × ScrapEntity)) (sid : Nat) (name : String)
    (h : chainMem store sid tid = false) :
    getReference (setEntriesAt store tid es) sid name = getReference store sid name := by
  unfold getReference chainMem at *
  exact getRefAux_setEntriesAt store tid es (sid + 1) sid name h

theorem lookupEntry_append_none (es₁ es₂ : List (String × ScrapEntity)) (name : String)
    (h₁ : lookupEntry es₁ name = none) :
    lookupEntry (es₁ ++ es₂) name = lookupEntry es₂ name := by
  induction es₁ with
  | nil => simp
  | cons hd tl ih =>
    obtain ⟨k, e⟩ := hd
    rw [List.cons_append]
    by_cases hk : k = name
    · simp only [lookupEntry, hk, if_true] at h₁
      exact Option.noConfusion h₁
    · simp only [lookupEntry, hk, if_false] at h₁ ⊢
      exact ih h₁

theorem scopeAddEntry_fresh (store : Store) (sid : Nat) (name : String)
    (ent : ScrapEntity) (h : lookupEntry (entriesAt store sid) name = none) :
    scopeAddEntry store sid name ent =
      setEntriesAt store sid (entriesAt store sid ++ [(name, ent)]) := by
  unfold scopeAddEntry
  rw [h]
  rfl

/-! ## Call-free nodes

A node is call-free when no call expression occurs in it.  Evaluating a
call-free node can read the scope chain but never mutates any scope
frame; the lemmas below (store preservation, and invariance under
replacing the table of a frame outside the reading chain) make that
precise and drive the parameter-binding theorems. -/

mutual
def callFree : ValueNode → Bool
  | .identifier _ => true
  | .call _ _ => false
  | .litObject pairs => callFreePairs pairs
  | .litArray _ => true
  | .strLit _ => true
  | .intLit _ => true
  | .charLit _ => true
  | .undefLit => true

def callFreePairs : List (String × ValueNode) → Bool
  | [] => true
  | (_, v) :: rest => callFree v && callFreePairs rest
end

theorem computeIdentifier_store (sym : String) (sid : Nat) (store : Store)
    (out : ScrapValue × Store) (h : computeIdentifier sym sid store = .ok out) :
    out.2 = store := by
  unfold computeIdentifier at h
  cases href : getReference store sid sym with
  | none => rw [href] at h; exact Except.noConfusion h
  | some ent =>
    rw [href] at h
    cases ent with
    | variableE a b v c =>
      exact (congrArg Prod.snd (Except.ok.inj h)).symm
    | functionE f =>
      exact (congrArg Prod.snd (Except.ok.inj h)).symm

/-- Evaluating call-free syntax never mutates the store: whenever the
evaluation of a call-free node (or pair list, or node list) succeeds, the
resulting store is the input store. -/
theorem callFree_preserves_store :
    ∀ fuel : Nat,
      (∀ n sid store out, callFree n = true →
        computeValue host fuel n sid store = .ok out → out.2 = store) ∧
      (∀ pairs sid store out, callFreePairs pairs = true →
        computeLitObj host fuel pairs sid store = .ok out → out.2 = store) ∧
      (∀ pairs acc sid store out, callFreePairs pairs = true →
        evalPairsInto host fuel pairs acc sid store = .ok out → out.2 = store) ∧
      (∀ ns sid store out, ns.all callFree = true →
        evalValueList host fuel ns sid store = .ok out → out.2 = store) := by
  intro fuel
  induction fuel with
  | zero =>
    refine ⟨?_, ?_, ?_, ?_⟩
    · intro n sid store out _ heval; exact Except.noConfusion heval
    · intro pairs sid store out _ heval; exact Except.noConfusion heval
    · intro pairs acc sid store out _ heval; exact Except.noConfusion heval
    · intro ns sid store out _ heval; exact Except.noConfusion heval
  | succ fuel ih =>
    obtain ⟨ihV, ihO, ihP, ihL⟩ := ih
    refine ⟨?_, ?_, ?_, ?_⟩
    · intro n sid store out hfree heval
      cases n with
      | identifier s =>
        exact computeIdentifier_store s sid store out heval
      | call name args => simp [callFree] at hfree
      | litObject pairs =>
        simp only [computeValue] at heval
        exact ihO pairs sid store out (by simpa [callFree] using hfree) heval
      | litArray elems =>
        simp only [computeValue] at heval
        unfold computeLitArr at heval
        simp only [Except.ok.injEq] at heval
        rw [← heval]
      | strLit s =>
        simp only [computeValue, Except.ok.injEq] at heval
        rw [← heval]
      | intLit n =>
        simp only [computeValue, Except.ok.injEq] at heval
        rw [← heval]
      | charLit c =>
        simp only [computeValue, Except.ok.injEq] at heval
        rw [← heval]
      | undefLit => simp [computeValue] at heval
    · intro pairs sid store out hfree heval
      simp only [computeLitObj] at heval
      cases hE : evalPairsInto host fuel pairs [] sid store with
      | error e => rw [hE] at heval; exact Except.noConfusion heval
      | ok p =>
        obtain ⟨es, s₁⟩ := p
        rw [hE] at heval
        simp only [Bind.bind, Except.bind, Except.ok.injEq] at heval
        have hs₁ : s₁ = store := ihP pairs [] sid store (es, s₁) hfree hE
        rw [← heval, ← hs₁]
    · intro pairs acc sid store out hfree heval
      cases pairs with
      | nil =>
        simp only [evalPairsInto, Except.ok.injEq] at heval
        rw [← heval]
      | cons hd rest =>
        obtain ⟨k, e⟩ := hd
        simp only [callFreePairs, Bool.and_eq_true] at hfree
        obtain ⟨hf₁, hf₂⟩ := hfree
        simp only [evalPairsInto] at heval
        cases hV : computeValue host fuel e sid store with
        | error er => rw [hV] at heval; exact Except.noConfusion heval
        | ok p =>
          obtain ⟨v, s₁⟩ := p
          rw [hV] at heval
          simp only [Bind.bind, Except.bind] at heval
          have hs₁ : s₁ = store := ihV e sid store (v, s₁) hf₁ hV
          have := ihP rest (setProp acc k (mkRestProp v)) sid s₁ out hf₂ heval
          rw [this, hs₁]
    · intro ns sid store out hfree heval
      cases ns with
      | nil =>
        simp only [evalValueList, Except.ok.injEq] at heval
        rw [← heval]
      | cons hd rest =>
        simp only [List.all_cons, Bool.and_eq_true] at hfree
        obtain ⟨hf₁, hf₂⟩ := hfree
        simp only [evalValueList] at heval
        cases hV : computeValue host fuel hd sid store with
        | error er => rw [hV] at heval; exact Except.noConfusion heval
        | ok p =>
          obtain ⟨v, s₁⟩ := p
          rw [hV] at heval
          simp only [Bind.bind, Except.bind] at heval
          cases hL : evalValueList host fuel rest sid s₁ with
          | error er => rw [hL] at heval; exact Except.noConfusion heval
          | ok q =>
            obtain ⟨vs, s₂⟩ := q
            rw [hL] at heval
            simp only [Except.ok.injEq] at heval
            have hs₁ : s₁ = store := ihV hd sid store (v, s₁) hf₁ hV
            have hs₂ : s₂ = s₁ := ihL rest sid s₁ (vs, s₂) hf₂ hL
            rw [← heval, hs₂, hs₁]

/-- Evaluating call-free syntax reads only the scope chain: replacing the
binding table of a frame outside the evaluating scope's chain changes
neither the outcome nor the produced value; the resulting store is the
correspondingly modified one. -/
theorem callFree_frame (tid : Nat) (es : List (String × ScrapEntity)) :
    ∀ fuel : Nat,
      (∀ n sid store, callFree n = true → chainMem store sid tid = false →
        computeValue host fuel n sid (setEntriesAt store tid es) =
          match computeValue host fuel n sid store with
          | .ok (v, _) => .ok (v, setEntriesAt store tid es)
          | .error er => .error er) ∧
      (∀ pairs sid store, callFreePairs pairs = true → chainMem store sid tid = false →
        computeLitObj host fuel pairs sid (setEntriesAt store tid es) =
          match computeLitObj host fuel pairs sid store with
          | .ok (v, _) => .ok (v, setEntriesAt store tid es)
          | .error er => .error er) ∧
      (∀ pairs acc sid store, callFreePairs pairs = true → chainMem store sid tid = false →
        evalPairsInto host fuel pairs acc sid (setEntriesAt store tid es) =
          match evalPairsInto host fuel pairs acc sid store with
          | .ok (l, _) => .ok (l, setEntriesAt store tid es)
          | .error er => .error er) ∧
      (∀ ns sid store, ns.all callFree = true → chainMem store sid tid = false →
        evalValueList host fuel ns sid (setEntriesAt store tid es) =
          match evalValueList host fuel ns sid store with
          | .ok (l, _) => .ok (l, setEntriesAt store tid es)
          | .error er => .error er) := by
  intro fuel
  induction fuel with
  | zero => exact ⟨fun _ _ _ _ _ => rfl, fun _ _ _ _ _ => rfl,
      fun _ _ _ _ _ _ => rfl, fun _ _ _ _ _ => rfl⟩
  | succ fuel ih =>
    obtain ⟨ihV, ihO, ihP, ihL⟩ := ih
    refine ⟨?_, ?_, ?_, ?_⟩
    · intro n sid store hfree hchain
      cases n with
      | identifier s =>
        simp only [computeValue]
        unfold computeIdentifier
        rw [getReference_setEntriesAt store tid es sid s hchain]
        cases getReference store sid s with
        | none => rfl
        | some ent => cases ent with
          | variableE a b v c => rfl
          | functionE f => rfl
      | call name args => simp [callFree] at hfree
      | litObject pairs =>
        simp only [computeValue]
        exact ihO pairs sid store (by simpa [callFree] using hfree) hchain
      | litArray elems => rfl
      | strLit s => rfl
      | intLit n => rfl
      | charLit c => rfl
      | undefLit => rfl
    · intro pairs sid store hfree hchain
      simp only [computeLitObj]
      rw [ihP pairs [] sid store hfree hchain]
      cases hE : evalPairsInto host fuel pairs [] sid store with
      | error er => rfl
      | ok p => obtain ⟨l, s₁⟩ := p; rfl
    · intro pairs acc sid store hfree hchain
      cases pairs with
      | nil => rfl
      | cons hd rest =>
        obtain ⟨k, e⟩ := hd
        simp only [callFreePairs, Bool.and_eq_true] at hfree
        obtain ⟨hf₁, hf₂⟩ := hfree
        simp only [evalPairsInto]
        rw [ihV e sid store hf₁ hchain]
        cases hV : computeValue host fuel e sid store with
        | error er => rfl
        | ok p =>
          obtain ⟨v, s₁⟩ := p
          have hs₁ : s₁ = store :=
            (callFree_preserves_store host fuel).1 e sid store (v, s₁) hf₁ hV
          rw [hs₁]
          simp only [Bind.bind, Except.bind]
          exact ihP rest (setProp acc k (mkRestProp v)) sid store hf₂ hchain
    · intro ns sid store hfree hchain
      cases ns with
      | nil => rfl
      | cons hd rest =>
        simp only [List.all_cons, Bool.and_eq_true] at hfree
        obtain ⟨hf₁, hf₂⟩ := hfree
        simp only [evalValueList]
        rw [ihV hd sid store hf₁ hchain]
        cases hV : computeValue host fuel hd sid store with
        | error er => rfl
        | ok p =>
          obtain ⟨v, s₁⟩ := p
          have hs₁ : s₁ = store :=
            (callFree_preserves_store host fuel).1 hd sid store (v, s₁) hf₁ hV
          rw [hs₁]
          simp only [Bind.bind, Except.bind]
          rw [ihL rest sid store hf₂ hchain]
          cases hL : evalValueList host fuel rest sid store with
          | error er => rfl
          | ok q => obtain ⟨vs, s₂⟩ := q; rfl

theorem setEntriesAt_entriesAt_self (store : Store) (sid : Nat) :
    setEntriesAt store sid (entriesAt store sid) = store := by
  cases h : store[sid]? with
  | none => unfold setEntriesAt; rw [h]
  | some sc =>
    have hlt : sid < store.length := by
      by_contra hge
      rw [List.getElem?_eq_none (Nat.le_of_not_lt hge)] at h
      exact Option.noConfusion h
    have hent : entriesAt store sid = sc.entries := by
      unfold entriesAt
      rw [h]
    rw [setEntriesAt_eq_set store sid _ sc h, hent]
    refine List.ext_getElem? fun i => ?_
    by_cases hi : i = sid
    · subst hi
      rw [List.getElem?_set_eq_of_lt _ (by simpa using hlt), h]
    · rw [List.getElem?_set_ne (Ne.symm hi)]

theorem evalValueList_length :
    ∀ (ns : List ValueNode) (fuel sid : Nat) (store : Store)
      (vs : List ScrapValue) (s' : Store),
      evalValueList host fuel ns sid store = .ok (vs, s') → vs.length = ns.length := by
  intro ns
  induction ns with
  | nil =>
    intro fuel sid store vs s' h
    cases fuel with
    | zero => exact Except.noConfusion h
    | succ fuel =>
      simp only [evalValueList, Except.ok.injEq, Prod.mk.injEq] at h
      rw [← h.1]
      rfl
  | cons hd rest ih =>
    intro fuel sid store vs s' h
    cases fuel with
    | zero => exact Except.noConfusion h
    | succ fuel =>
      simp only [evalValueList] at h
      cases hV : computeValue host fuel hd sid store with
      | error er => rw [hV] at h; exact Except.noConfusion h
      | ok p =>
        obtain ⟨v, s₁⟩ := p
        rw [hV] at h
        simp only [Bind.bind, Except.bind] at h
        cases hL : evalValueList host fuel rest sid s₁ with
        | error er => rw [hL] at h; exact Except.noConfusion h
        | ok q =>
          obtain ⟨vs', s₂⟩ := q
          rw [hL] at h
          simp only [Except.ok.injEq, Prod.mk.injEq] at h
          rw [← h.1]
          simp [ih fuel sid s₁ vs' s₂ hL]

/-- The positional binding loop, on call-free arguments that evaluate (in
the caller's scope) to the value list `vs` without touching the store,
appends one mutable Variable binding per parameter to the callee frame's
own table, in order, pairing parameters and values positionally. -/
theorem bindArgsLoop_spec (calleeSid calleerSid : Nat) :
    ∀ (ps : List ScrapParam) (argNodes : List ValueNode) (fuel : Nat)
      (vs : List ScrapValue) (store : Store),
      argNodes.all callFree = true →
      chainMem store calleerSid calleeSid = false →
      calleeSid < store.length →
      ps.length = argNodes.length →
      (ps.map ScrapParam.pName).Nodup →
      (∀ p ∈ ps, lookupEntry (entriesAt store calleeSid) p.pName = none) →
      evalValueList host fuel argNodes calleerSid store = .ok (vs, store) →
      bindArgsLoop host fuel ps argNodes calleeSid calleerSid store =
        .ok (setEntriesAt store calleeSid (entriesAt store calleeSid ++
          List.zipWith (fun p v => (p.pName, ScrapEntity.variableE false p.pName v false))
            ps vs)) := by
  intro ps
  induction ps with
  | nil =>
    intro argNodes fuel vs store hfree hchain hvalid hlen hnodup hfresh heval
    have hargs : argNodes = [] := List.eq_nil_of_length_eq_zero hlen.symm
    subst hargs
    cases fuel with
    | zero => exact Except.noConfusion heval
    | succ fuel =>
      simp only [List.zipWith_nil_left, List.append_nil]
      rw [setEntriesAt_entriesAt_self]
      rfl
  | cons p ps' ih =>
    intro argNodes fuel vs store hfree hchain hvalid hlen hnodup hfresh heval
    cases argNodes with
    | nil => exact absurd hlen (by simp)
    | cons a rest =>
      cases fuel with
      | zero => exact Except.noConfusion heval
      | succ fuel =>
        simp only [List.all_cons, Bool.and_eq_true] at hfree
        obtain ⟨hf₁, hf₂⟩ := hfree
        simp only [evalValueList] at heval
        cases hV : computeValue host fuel a calleerSid store with
        | error er => rw [hV] at heval; exact Except.noConfusion heval
        | ok q =>
          obtain ⟨v, s₁⟩ := q
          have hs₁ : s₁ = store :=
            (callFree_preserves_store host fuel).1 a calleerSid store (v, s₁) hf₁ hV
          rw [hs₁] at hV
          rw [hV] at heval
          simp only [Bind.bind, Except.bind] at heval
          cases hL : evalValueList host fuel rest calleerSid store with
          | error er => rw [hL] at heval; exact Except.noConfusion heval
          | ok q₂ =>
            obtain ⟨vs', s₂⟩ := q₂
            rw [hL] at heval
            simp only [Except.ok.injEq, Prod.mk.injEq] at heval
            obtain ⟨hvs, hs₂⟩ := heval
            rw [hs₂] at hL
            have hfreshp : lookupEntry (entriesAt store calleeSid) p.pName = none :=
              hfresh p (List.mem_cons_self p ps')
            have hadd : scopeAddEntry store calleeSid p.pName
                (.variableE false p.pName v false) =
                setEntriesAt store calleeSid (entriesAt store calleeSid ++
                  [(p.pName, .variableE false p.pName v false)]) :=
              scopeAddEntry_fresh store calleeSid p.pName _ hfreshp
            simp only [bindArgsLoop]
            rw [hV]
            simp only [Bind.bind, Except.bind]
            rw [hadd]
            set E₀ := entriesAt store calleeSid with hE₀
            set b := (p.pName, ScrapEntity.variableE false p.pName v false) with hb
            set store₁ := setEntriesAt store calleeSid (E₀ ++ [b]) with hstore₁
            have hchain₁ : chainMem store₁ calleerSid calleeSid = false := by
              rw [hstore₁, chainMem_setEntriesAt]
              exact hchain
            have hvalid₁ : calleeSid < store₁.length := by
              rw [hstore₁, setEntriesAt_length]
              exact hvalid
            have hentries₁ : entriesAt store₁ calleeSid = E₀ ++ [b] := by
              rw [hstore₁]
              exact entriesAt_setEntriesAt_self store calleeSid (E₀ ++ [b]) hvalid
            have hnodup' : (ps'.map ScrapParam.pName).Nodup := by
              simp only [List.map_cons, List.nodup_cons] at hnodup
              exact hnodup.2
            have hne : ∀ q ∈ ps', q.pName ≠ p.pName := by
              intro q hq hcontra
              simp only [List.map_cons, List.nodup_cons] at hnodup
              exact hnodup.1 (hcontra ▸ List.mem_map_of_mem ScrapParam.pName hq)
            have hfresh₁ : ∀ q ∈ ps',
                lookupEntry (entriesAt store₁ calleeSid) q.pName = none := by
              intro q hq
              rw [hentries₁,
                lookupEntry_append_none E₀ [b] q.pName (hfresh q (List.mem_cons_of_mem p hq))]
              simp only [hb, lookupEntry]
              rw [if_neg]
              exact fun hcl => hne q hq (Eq.symm hcl)
            have heval₁ : evalValueList host fuel rest calleerSid store₁ = .ok (vs', store₁) := by
              rw [hstore₁]
              rw [(callFree_frame host calleeSid (E₀ ++ [b]) fuel).2.2.2
                rest calleerSid store hf₂ hchain]
              rw [hL]
            have hlen' : ps'.length = rest.length := by
              simpa using hlen
            have hstep := ih rest fuel vs' store₁ hf₂ hchain₁ hvalid₁ hlen' hnodup' hfresh₁ heval₁
            rw [hstep, hentries₁, hstore₁, setEntriesAt_setEntriesAt]
            rw [← hvs]
            simp only [List.zipWith_cons_cons, List.append_assoc, List.cons_append,
              List.nil_append]

theorem paramsHaveRest_concat (ps : List ScrapParam) (r : ScrapParam) :
    paramsHaveRest (ps ++ [r]) = r.isRest := by
  unfold paramsHaveRest
  rw [List.getLast?_concat]

theorem lastParamName_concat (ps : List ScrapParam) (r : ScrapParam) :
    lastParamName (ps ++ [r]) = r.pName := by
  unfold lastParamName
  rw [List.getLast?_concat]

theorem lookupEntry_zipWith_none (name : String) :
    ∀ (ps : List ScrapParam) (vs : List ScrapValue),
      (∀ p ∈ ps, p.pName ≠ name) →
      lookupEntry
        (List.zipWith (fun p v => (p.pName, ScrapEntity.variableE false p.pName v false))
          ps vs) name = none := by
  intro ps
  induction ps with
  | nil => intro vs _; rfl
  | cons p ps' ih =>
    intro vs hne
    cases vs with
    | nil => rfl
    | cons v vs' =>
      simp only [List.zipWith_cons_cons, lookupEntry]
      rw [if_neg (hne p (List.mem_cons_self p ps'))]
      exact ih vs' fun q hq => hne q (List.mem_cons_of_mem p hq)

/-- C4: a call to a function whose last parameter is flagged rest binds
each parameter before the last positionally (the prefix of the arguments
must be at least as long as the parameter prefix, else the call fails
with the from-N-to-multiple arity error), each as a mutable Variable
holding the corresponding argument evaluated in the caller's scope; all
remaining trailing arguments are evaluated in the caller's scope, in
order, collected into one array value, and bound as a const Variable
under the rest parameter's name.  The hypotheses supply the argument
values through the sequential evaluator and restrict the arguments to
call-free expressions so that their evaluation provably leaves the store
unchanged; the two instances of the claim (a call with one extra and
with zero trailing arguments) are discharged in the witness. -/
theorem c4_rest_parameter_binding (fuel : Nat) (fname : String)
    (calleeSid calleerSid : Nat) (ps : List ScrapParam) (r : ScrapParam)
    (args : List ValueNode) (store : Store) (hrest : r.isRest = true) :
    (args.length < ps.length →
      bindCallArgs host (fuel + 2) args fname (ps ++ [r]) calleeSid calleerSid store =
        .error (.runtime (restArityMsg fname ps.length args.length))) ∧
    (∀ vs₁ vs₂ : List ScrapValue,
      args.all callFree = true →
      chainMem store calleerSid calleeSid = false →
      calleeSid < store.length →
      ps.length ≤ args.length →
      ((ps ++ [r]).map ScrapParam.pName).Nodup →
      (∀ p ∈ ps ++ [r], lookupEntry (entriesAt store calleeSid) p.pName = none) →
      evalValueList host fuel (args.take ps.length) calleerSid store = .ok (vs₁, store) →
      evalValueList host fuel (args.drop ps.length) calleerSid store = .ok (vs₂, store) →
      bindCallArgs host (fuel + 2) args fname (ps ++ [r]) calleeSid calleerSid store =
        .ok (setEntriesAt store calleeSid (entriesAt store calleeSid ++
          (List.zipWith (fun p v => (p.pName, ScrapEntity.variableE false p.pName v false))
              ps vs₁ ++
            [(r.pName, ScrapEntity.variableE true r.pName
                (.array (vs₂.map mkRestProp)) false)])))) := by
  have hhr : paramsHaveRest (ps ++ [r]) = true := by
    rw [paramsHaveRest_concat]
    exact hrest
  have hidx : (ps ++ [r]).length - 1 = ps.length := by simp
  have htakeP : (ps ++ [r]).take ps.length = ps := List.take_left ps [r]
  constructor
  · intro hlt
    have htakeA : (args.take ps.length).length = args.length := by
      rw [List.length_take]
      omega
    simp only [bindCallArgs, hhr, if_true]
    simp only [computeRestParameters, hidx, htakeP, htakeA]
    rw [if_pos (by simp; omega)]
  · intro vs₁ vs₂ hfree hchain hvalid hlen hnodup hfresh h1 h2
    have htakeA : (args.take ps.length).length = ps.length := by
      rw [List.length_take]
      omega
    have hfreeTake : (args.take ps.length).all callFree = true :=
      List.all_eq_true.mpr fun x hx =>
        List.all_eq_true.mp hfree x (List.take_subset _ _ hx)
    have hfreeDrop : (args.drop ps.length).all callFree = true :=
      List.all_eq_true.mpr fun x hx =>
        List.all_eq_true.mp hfree x (List.drop_subset _ _ hx)
    have hnodupPs : (ps.map ScrapParam.pName).Nodup := by
      rw [List.map_append] at hnodup
      exact hnodup.of_append_left
    have hrNotInPs : ∀ p ∈ ps, p.pName ≠ r.pName := by
      intro p hp hcontra
      rw [List.map_append, List.map_singleton] at hnodup
      have hmem : r.pName ∈ ps.map ScrapParam.pName :=
        hcontra ▸ List.mem_map_of_mem ScrapParam.pName hp
      exact (List.nodup_append.mp hnodup).2.2 hmem (List.mem_singleton_self r.pName)
    have hfreshPs : ∀ p ∈ ps, lookupEntry (entriesAt store calleeSid) p.pName = none :=
      fun p hp => hfresh p (List.mem_append_left [r] hp)
    have hbind := bindArgsLoop_spec host calleeSid calleerSid ps (args.take ps.length)
      fuel vs₁ store hfreeTake hchain hvalid htakeA.symm hnodupPs hfreshPs h1
    simp only [bindCallArgs, hhr, if_true]
    simp only [computeRestParameters, hidx, htakeP]
    rw [if_neg (by rw [htakeA]; omega)]
    rw [hbind]
    simp only [Bind.bind, Except.bind]
    rw [(callFree_frame host calleeSid (entriesAt store calleeSid ++
        List.zipWith (fun p v => (p.pName, ScrapEntity.variableE false p.pName v false))
          ps vs₁) fuel).2.2.2 (args.drop ps.length) calleerSid store hfreeDrop hchain]
    rw [h2]
    simp only
    rw [lastParamName_concat]
    have hvalid₁ : calleeSid < (setEntriesAt store calleeSid (entriesAt store calleeSid ++
        List.zipWith (fun p v => (p.pName, ScrapEntity.variableE false p.pName v false))
          ps vs₁)).length := by
      rw [setEntriesAt_length]
      exact hvalid
    have hentries₁ : entriesAt (setEntriesAt store calleeSid (entriesAt store calleeSid ++
        List.zipWith (fun p v => (p.pName, ScrapEntity.variableE false p.pName v false))
          ps vs₁)) calleeSid =
        entriesAt store calleeSid ++
          List.zipWith (fun p v => (p.pName, ScrapEntity.variableE false p.pName v false))
            ps vs₁ :=
      entriesAt_setEntriesAt_self store calleeSid _ hvalid
    have hfreshR : lookupEntry (entriesAt store calleeSid ++
        List.zipWith (fun p v => (p.pName, ScrapEntity.variableE false p.pName v false))
          ps vs₁) r.pName = none := by
      rw [lookupEntry_append_none _ _ _ (hfresh r (List.mem_append_right ps
        (List.mem_singleton_self r)))]
      exact lookupEntry_zipWith_none r.pName ps vs₁ hrNotInPs
    rw [scopeAddEntry_fresh _ _ _ _ (by rw [hentries₁]; exact hfreshR)]
    rw [hentries₁, setEntriesAt_setEntriesAt, List.append_assoc]

/-- C5: calling a user-defined function with no rest parameter and an
argument count different from the parameter count fails with the arity
error naming both counts (first conjunct, at the level of the whole
call execution); with matching counts the dispatch reaches the
positional binding loop (second conjunct), which binds each parameter in
the callee's own scope as a mutable, non-const Variable holding the
corresponding argument evaluated in the caller's scope (third conjunct,
under the same call-free evaluation hypotheses as C4). -/
theorem c5_nonrest_arity_and_binding (fuel : Nat) (fname : String)
    (params : List ScrapParam) (body : List InstructionNode) (ret : ValueNode)
    (calleeSid calleerSid : Nat) (args : List ValueNode) (store : Store) :
    (paramsHaveRest params = false → args.length ≠ params.length →
      execDefinedFunc host (fuel + 2) args fname params body ret calleeSid calleerSid store =
        .error (.runtime (nonRestArityMsg fname params.length args.length))) ∧
    (paramsHaveRest params = false → args.length = params.length →
      bindCallArgs host (fuel + 1) args fname params calleeSid calleerSid store =
        bindArgsLoop host fuel params args calleeSid calleerSid store) ∧
    (∀ vs : List ScrapValue,
      args.all callFree = true →
      chainMem store calleerSid calleeSid = false →
      calleeSid < store.length →
      params.length = args.length →
      (params.map ScrapParam.pName).Nodup →
      (∀ p ∈ params, lookupEntry (entriesAt store calleeSid) p.pName = none) →
      evalValueList host fuel args calleerSid store = .ok (vs, store) →
      bindArgsLoop host fuel params args calleeSid calleerSid store =
        .ok (setEntriesAt store calleeSid (entriesAt store calleeSid ++
          List.zipWith (fun p v => (p.pName, ScrapEntity.variableE false p.pName v false))
            params vs))) := by
  refine ⟨?_, ?_, ?_⟩
  · intro hnorest hne
    have hb : bindCallArgs host (fuel + 1) args fname params calleeSid calleerSid store =
        .error (.runtime (nonRestArityMsg fname params.length args.length)) := by
      simp only [bindCallArgs, hnorest, Bool.false_eq_true, if_false]
      rw [if_pos hne]
    simp only [execDefinedFunc]
    rw [hb]
    rfl
  · intro hnorest heq
    simp only [bindCallArgs, hnorest, Bool.false_eq_true, if_false]
    rw [if_neg (by omega)]
  · intro vs hfree hchain hvalid hlen hnodup hfresh heval
    exact bindArgsLoop_spec host calleeSid calleerSid params args fuel vs store
      hfree hchain hvalid hlen hnodup hfresh heval

/-- C6: when the protocol reaches the return-value safety check (the
parameter binding and the body execution both succeeded), a return
expression that is a bare identifier naming a key of the function's own
scope table makes the call fail with the locally-scoped-escape runtime
error before any return value is produced; a return expression that is
not a bare identifier is not subject to the check, and the call proceeds
to the scope release and return-value computation. -/
theorem c6_local_return_escape (fuel : Nat) (args : List ValueNode) (fname : String)
    (params : List ScrapParam) (body : List InstructionNode) (ret : ValueNode)
    (calleeSid calleerSid : Nat) (store store₁ store₂ : Store) :
    (bindCallArgs host fuel args fname params calleeSid calleerSid store = .ok store₁ →
      execBody host fuel body calleeSid store₁ = .ok store₂ →
      ∀ s, ret = .identifier s →
        (lookupEntry (entriesAt store₂ calleeSid) s).isSome = true →
        execDefinedFunc host (fuel + 1) args fname params body ret calleeSid calleerSid store =
          .error (.runtime (escapeMsg fname))) ∧
    (bindCallArgs host fuel args fname params calleeSid calleerSid store = .ok store₁ →
      execBody host fuel body calleeSid store₁ = .ok store₂ →
      (∀ s, ret ≠ .identifier s) →
      execDefinedFunc host (fuel + 1) args fname params body ret calleeSid calleerSid store =
        (if ret.isUndefinedNode then .ok (.undefinedV, cleanScope store₂ calleeSid)
         else computeValue host fuel ret calleeSid (cleanScope store₂ calleeSid))) := by
  constructor
  · intro hbind hbody s hs hkey
    subst hs
    simp only [execDefinedFunc]
    rw [hbind]
    simp only [Bind.bind, Except.bind]
    rw [hbody]
    have hesc : escapeCheck (.identifier s) store₂ calleeSid = true := by
      simp only [escapeCheck]
      exact hkey
    simp [hesc]
  · intro hbind hbody hnotid
    simp only [execDefinedFunc]
    rw [hbind]
    simp only [Bind.bind, Except.bind]
    rw [hbody]
    have hesc : escapeCheck ret store₂ calleeSid = false := by
      cases ret with
      | identifier s => exact absurd rfl (hnotid s)
      | call a b => rfl
      | litObject a => rfl
      | litArray a => rfl
      | strLit a => rfl
      | intLit a => rfl
      | charLit a => rfl
      | undefLit => rfl
    simp [hesc]

/-- C7: on a call whose parameter binding and body execution succeed and
whose return expression passes the escape check, the function's own
scope is released (its table emptied) after the body executes and before
the return value is computed: an explicit undefined return expression
yields the Undefined sentinel, and any other return expression is
evaluated against the function's own scope in a store where that scope's
table is already empty. -/
theorem c7_clean_scope_then_return (fuel : Nat) (args : List ValueNode) (fname : String)
    (params : List ScrapParam) (body : List InstructionNode) (ret : ValueNode)
    (calleeSid calleerSid : Nat) (store store₁ store₂ : Store)
    (hbind : bindCallArgs host fuel args fname params calleeSid calleerSid store = .ok store₁)
    (hbody : execBody host fuel body calleeSid store₁ = .ok store₂)
    (hesc : escapeCheck ret store₂ calleeSid = false)
    (hvalid : calleeSid < store₂.length) :
    execDefinedFunc host (fuel + 1) args fname params body ret calleeSid calleerSid store =
      (if ret.isUndefinedNode then .ok (.undefinedV, cleanScope store₂ calleeSid)
       else computeValue host fuel ret calleeSid (cleanScope store₂ calleeSid)) ∧
    entriesAt (cleanScope store₂ calleeSid) calleeSid = [] := by
  constructor
  · simp only [execDefinedFunc]
    rw [hbind]
    simp only [Bind.bind, Except.bind]
    rw [hbody]
    simp [hesc]
  · unfold cleanScope
    exact entriesAt_setEntriesAt_self store₂ calleeSid [] hvalid

/-- C8 (amended): resolving a call's target through the caller's scope
chain fails with an undefined-reference error when the name is absent;
when the name resolves to a Variable the call never proceeds — the
guard of line 171 reads a `getVal` member the ScrapVariable class does
not define, so it receives the host's undefined and fails for every
assigned value, and every Variable callee (even one holding a
user-defined or native Function) fails with the not-callable runtime
error; an entity that is itself a Function is returned as the callee
without any check. -/
theorem c8_findCallee_resolution (name : String) (sid : Nat) (store : Store) :
    (getReference store sid name = none →
      findCallee name sid store = .error (.undefinedRef name)) ∧
    (∀ (c : Bool) (n : String) (v : ScrapValue) (e : Bool),
      getReference store sid name = some (.variableE c n v e) →
      findCallee name sid store = .error (.runtime (notCallableMsg name))) ∧
    (∀ f : ScrapValue, getReference store sid name = some (.functionE f) →
      findCallee name sid store = .ok f) := by
  refine ⟨?_, ?_, ?_⟩
  · intro h
    unfold findCallee
    rw [h]
  · intro c n v e h
    unfold findCallee
    rw [h]
    rfl
  · intro f h
    unfold findCallee
    rw [h]

/-- C3: the claim states that array-literal construction evaluates each
element against the current scope, in order, and produces the ordered
array of the evaluated elements.  The source's `computeLitArr` has an
empty body: for every element list, value dispatch on an array literal
returns the host's undefined, evaluates nothing (the store is unchanged,
even when an element could not evaluate at all), and never produces an
array value. -/
theorem c3_litArr_empty_body (fuel sid : Nat) (elems : List ValueNode) (store : Store) :
    computeValue host (fuel + 1) (.litArray elems) sid store = .ok (.hostUndefined, store) ∧
    computeLitArr elems sid store = .ok (.hostUndefined, store) ∧
    (∀ props : List ScrapObjectProperty,
      (ScrapValue.hostUndefined = ScrapValue.array props) = False) := by
  refine ⟨rfl, rfl, fun props => ?_⟩
  simp

/-! ## Concrete fixtures for the witnesses -/

/-- Host environment used by the witnesses: every native call yields the
Undefined sentinel. -/
def wHost : String → List ScrapValue → ScrapValue := fun _ _ => .undefinedV

/-- A two-frame store: the global scope and the own scope of a function
`f`, initially empty. -/
def wStore : Store := [⟨"global", none, []⟩, ⟨"f", some 0, []⟩]

/-- The store after the body of `f` declared a local `x` bound to 1. -/
def wStoreX : Store :=
  [⟨"global", none, []⟩,
   ⟨"f", some 0, [("x", .variableE false "x" (.integer 1) false)]⟩]

/-- Witness for C4: the concrete calls of the claim.  `f(a, ...rest)`
called with no arguments fails the prefix arity check; called as
`f(1,2,3)` it binds `a = 1` as a mutable Variable and `rest` as a const
Variable holding the array `[2,3]`; called as `f(1)` it binds `a = 1`
and `rest = []`. -/
theorem c4_witness :
    (bindCallArgs wHost 10 [] "f" [⟨"a", false⟩, ⟨"rest", true⟩] 1 0 wStore =
      .error (.runtime (restArityMsg "f" 1 0))) ∧
    (bindCallArgs wHost 10 [.intLit 1, .intLit 2, .intLit 3] "f"
        [⟨"a", false⟩, ⟨"rest", true⟩] 1 0 wStore =
      .ok [⟨"global", none, []⟩,
           ⟨"f", some 0,
             [("a", .variableE false "a" (.integer 1) false),
              ("rest", .variableE true "rest"
                (.array [mkRestProp (.integer 2), mkRestProp (.integer 3)]) false)]⟩]) ∧
    (bindCallArgs wHost 10 [.intLit 1] "f" [⟨"a", false⟩, ⟨"rest", true⟩] 1 0 wStore =
      .ok [⟨"global", none, []⟩,
           ⟨"f", some 0,
             [("a", .variableE false "a" (.integer 1) false),
              ("rest", .variableE true "rest" (.array []) false)]⟩]) := by
  refine ⟨?_, ?_, ?_⟩
  · exact (c4_rest_parameter_binding wHost 8 "f" 1 0 [⟨"a", false⟩] ⟨"rest", true⟩
      [] wStore rfl).1 (by decide)
  · exact (c4_rest_parameter_binding wHost 8 "f" 1 0 [⟨"a", false⟩] ⟨"rest", true⟩
      [.intLit 1, .intLit 2, .intLit 3] wStore rfl).2 [.integer 1]
      [.integer 2, .integer 3] rfl rfl (by decide) (by decide) (by decide)
      (by intro p hp; rfl) rfl rfl
  · exact (c4_rest_parameter_binding wHost 8 "f" 1 0 [⟨"a", false⟩] ⟨"rest", true⟩
      [.intLit 1] wStore rfl).2 [.integer 1] [] rfl rfl (by decide) (by decide)
      (by decide) (by intro p hp; rfl) rfl rfl

/-- Witness for C5: `f(a)` called with no arguments fails with the arity
error naming 1 and 0; called with the single argument 7 the loop binds
`a` as a mutable Variable holding 7 in the callee frame. -/
theorem c5_witness :
    (execDefinedFunc wHost 10 [] "f" [⟨"a", false⟩] [] .undefLit 1 0 wStore =
      .error (.runtime (nonRestArityMsg "f" 1 0))) ∧
    (bindArgsLoop wHost 8 [⟨"a", false⟩] [.intLit 7] 1 0 wStore =
      .ok [⟨"global", none, []⟩,
           ⟨"f", some 0, [("a", .variableE false "a" (.integer 7) false)]⟩]) := by
  constructor
  · exact (c5_nonrest_arity_and_binding wHost 8 "f" [⟨"a", false⟩] [] .undefLit
      1 0 [] wStore).1 rfl (by decide)
  · exact (c5_nonrest_arity_and_binding wHost 8 "f" [⟨"a", false⟩] [] .undefLit
      1 0 [.intLit 7] wStore).2.2 [.integer 7] rfl rfl (by decide) rfl
      (by decide) (by intro p hp; rfl) rfl

/-- Witness for C6: a function whose body declares a local `x` and whose
return expression is the bare identifier `x` is rejected with the
locally-scoped-escape runtime error. -/
theorem c6_witness :
    execDefinedFunc wHost 10 [] "f" [] [.entity (.varDecl false "x" false (.intLit 1))]
        (.identifier "x") 1 0 wStore = .error (.runtime (escapeMsg "f")) :=
  (c6_local_return_escape wHost 9 [] "f" []
    [.entity (.varDecl false "x" false (.intLit 1))] (.identifier "x")
    1 0 wStore wStore wStoreX).1 rfl rfl "x" rfl rfl

/-- Witness for C7: on the same function with an explicit undefined
return expression the call succeeds, the callee frame's table is emptied
by `clean()` before the return value is produced, and the result is the
Undefined sentinel. -/
theorem c7_witness :
    (execDefinedFunc wHost 10 [] "f" [] [.entity (.varDecl false "x" false (.intLit 1))]
        .undefLit 1 0 wStore =
      (if ValueNode.isUndefinedNode .undefLit then .ok (.undefinedV, cleanScope wStoreX 1)
       else computeValue wHost 9 .undefLit 1 (cleanScope wStoreX 1))) ∧
    entriesAt (cleanScope wStoreX 1) 1 = [] :=
  c7_clean_scope_then_return wHost 9 [] "f" []
    [.entity (.varDecl false "x" false (.intLit 1))] .undefLit 1 0
    wStore wStore wStoreX rfl rfl rfl (by decide)

/-- Store with the name `g` bound to a Variable whose assigned value is a
native function with arity 1. -/
def c8Store : Store :=
  [⟨"global", none, [("g", .variableE false "g" (.nativeFn "g" (some 1)) false)]⟩]

/-- Store with `d` bound to a Variable holding a user-defined function. -/
def c8StoreD : Store :=
  [⟨"global", none, [("d", .variableE false "d" (.definedFn "d" 1 [] [] .undefLit) false)]⟩,
   ⟨"d", some 0, []⟩]

/-- Counterexample for C8 as stated: `g` resolves to a Variable whose
assigned value is a callable native Function, and `d` to a Variable
whose assigned value is a callable user-defined Function, yet both
resolutions fail with the not-callable runtime error instead of
proceeding — no Variable callee ever proceeds, because the guard reads
the `getVal` member the ScrapVariable class does not define. -/
theorem c8_counterexample_callable_in_variable :
    (getReference c8Store 0 "g" =
        some (.variableE false "g" (.nativeFn "g" (some 1)) false) ∧
      findCallee "g" 0 c8Store = .error (.runtime (notCallableMsg "g"))) ∧
    (getReference c8StoreD 0 "d" =
        some (.variableE false "d" (.definedFn "d" 1 [] [] .undefLit) false) ∧
      findCallee "d" 0 c8StoreD = .error (.runtime (notCallableMsg "d"))) :=
  ⟨⟨rfl, rfl⟩, ⟨rfl, rfl⟩⟩

/-- Store with `h` bound directly to a Function entity, no Variable
wrapper. -/
def c8StoreF : Store := [⟨"global", none, [("h", .functionE (.nativeFn "h" none))]⟩]

/-- Witness for C8 (amended): a Variable holding a user-defined function
still fails with the not-callable error, an absent name fails with the
undefined-reference error, and an entity that is directly a Function is
returned as the callee. -/
theorem c8_witness :
    findCallee "d" 0 c8StoreD = .error (.runtime (notCallableMsg "d")) ∧
    findCallee "missing" 0 c8StoreD = .error (.undefinedRef "missing") ∧
    findCallee "h" 0 c8StoreF = .ok (.nativeFn "h" none) := by
  refine ⟨?_, ?_, ?_⟩
  · exact (c8_findCallee_resolution "d" 0 c8StoreD).2.1 false "d"
      (.definedFn "d" 1 [] [] .undefLit) false rfl
  · exact (c8_findCallee_resolution "missing" 0 c8StoreD).1 rfl
  · exact (c8_findCallee_resolution "h" 0 c8StoreF).2.2 (.nativeFn "h" none) rfl
